import Mathlib

/-!
Verification of the coverage decision engine of the recommend-report repository
(`app/services/insurance_engine.py`), shallowly embedded in Lean 4.

Machine integers are modelled by `Int` (Python integers are unbounded), the
float arithmetic of the radar scores by `ℚ`, and the rate tables — which are
read-only configuration data imported from `app.constants.insurance_rates`,
a module whose source is not part of the repository snapshot — by an abstract
`RateTable` structure together with one concrete table modelled from the
specification's description of the data.
-/

namespace RecommendReport

/-- The eleven fixed coverage codes `A`..`K`. -/
inductive Code
  | A | B | C | D | E | F | G | H | I | J | K
deriving DecidableEq, Fintype, Repr

/-- The fixed code order `["A", ..., "K"]` used by the engine when it walks
`self.indices` (a dict with exactly these eleven keys). -/
def allCodes : List Code :=
  [Code.A, Code.B, Code.C, Code.D, Code.E, Code.F, Code.G, Code.H,
   Code.I, Code.J, Code.K]

/--
Modelled from the spec: the static rate tables of `app/constants/insurance_rates.py`
are absent from the repository snapshot (only re-exported by `app/constants/__init__.py`).
This structure collects the table data the engine reads:
`MAX_INDEX`, `INSURANCE_RATES[code]["options"]` (tier → premium; `none` = tier has
no defined premium), `COMPULSORY_RATES` ((threshold, premium) pairs, `none`
threshold = the "no upper bound" sentinel), `REDUCE_PRIORITY` and
`MAX_VOLUNTARY_PREMIUM`.
-/
structure RateTable where
  maxIndex : Code → Int
  options : Code → Int → Option Int
  compulsoryRates : List (Option Int × Int)
  reducePriority : List Code
  maxVoluntaryPremium : Int

/-- Premium contribution of code `k` at tier `v`: the engine counts
`options[v]` only when `v > 0` and the tier has a defined premium
(`calculate_premium`, lines 190-194). -/
def contrib (tbl : RateTable) (k : Code) (v : Int) : Int :=
  if 0 < v then
    match tbl.options k v with
    | some p => p
    | none => 0
  else 0

/-- Voluntary premium: sum of the contributions of the eleven codes
(`calculate_premium`, lines 189-194). -/
def voluntary_premium (tbl : RateTable) (idx : Code → Int) : Int :=
  (allCodes.map fun k => contrib tbl k (idx k)).sum

/-- The scan of `COMPULSORY_RATES` in `_get_compulsory_premium` (lines 181-183):
first pair whose threshold is `None` or at least the displacement. -/
def compulsory_scan (rates : List (Option Int × Int)) (d : Int) : Option Int :=
  match rates with
  | [] => none
  | (t, p) :: rest =>
    match t with
    | none => some p
    | some thr => if d ≤ thr then some p else compulsory_scan rest d

/-- `_get_compulsory_premium` (lines 179-184): the scan's result, falling back
to the last pair's premium.  (On an empty table the Python code would fail with
an index error; the fallback-of-the-fallback `0` is never used under the
nonempty-table hypothesis of the theorems below.) -/
def get_compulsory_premium (tbl : RateTable) (d : Int) : Int :=
  match compulsory_scan tbl.compulsoryRates d with
  | some p => p
  | none => ((tbl.compulsoryRates.getLast?).map Prod.snd).getD 0

/-- The dict returned by `calculate_premium` (lines 186-202). -/
structure PriceSummary where
  compulsory : Int
  voluntary : Int
  subtotal : Int
  final_amount : Int
deriving DecidableEq, Repr

/-- `calculate_premium` (lines 186-202): pure function of the profile,
the displacement and the tables. -/
def calculate_premium (tbl : RateTable) (disp : Int) (idx : Code → Int) :
    PriceSummary :=
  let compulsory := get_compulsory_premium tbl disp
  let voluntary := voluntary_premium tbl idx
  { compulsory := compulsory
    voluntary := voluntary
    subtotal := compulsory + voluntary
    final_amount := compulsory + voluntary }

/-- `calculate_premium()["final_amount"]`, the quantity the Budget Reducer
compares against the target. -/
def final_amount (tbl : RateTable) (disp : Int) (idx : Code → Int) : Int :=
  (calculate_premium tbl disp idx).final_amount

/-- `finalize` (lines 144-150): for every code, a negative index becomes 0 and
a positive index is clamped to `max(1, min(MAX_INDEX[k], v))`; index 0 is kept. -/
def finalize (tbl : RateTable) (idx : Code → Int) : Code → Int :=
  fun k =>
    if idx k < 0 then 0
    else if 0 < idx k then max 1 (min (tbl.maxIndex k) (idx k))
    else idx k

/-- The tier-range invariant the Boundary Normalizer enforces: every index is
0 or lies in `[1, MAX_INDEX[k]]`. -/
def Inv (tbl : RateTable) (idx : Code → Int) : Prop :=
  ∀ k, idx k = 0 ∨ (1 ≤ idx k ∧ idx k ≤ tbl.maxIndex k)

instance (tbl : RateTable) (idx : Code → Int) : Decidable (Inv tbl idx) :=
  inferInstanceAs (Decidable (∀ k, _ ∨ _))

/--
Modelled from the spec: concrete contents for the missing
`app/constants/insurance_rates.py`.  Maximum tiers follow the values the engine
itself relies on (`E` has maximum tier 5, the "not covered" tier of the basic
anchoring; the binary theft code `H` has the single tier 1; `G` reaches tier 4;
the binary code `F` sits at its fixed tier 3); forward codes have premiums
increasing with the tier, the reverse code `E` has premiums decreasing with the
tier, and its "not covered" tier 5 has no defined premium — the situation the
engine's `if v in options` guard exists for.  `REDUCE_PRIORITY` lists all
eleven codes, least important first.
-/
def specTable : RateTable where
  maxIndex k :=
    match k with
    | Code.A => 4 | Code.B => 4 | Code.C => 4 | Code.D => 4
    | Code.E => 5 | Code.F => 3 | Code.G => 4 | Code.H => 1
    | Code.I => 3 | Code.J => 3 | Code.K => 3
  options k v :=
    match k with
    | Code.A =>
      if v = 1 then some 1200 else if v = 2 then some 1700
      else if v = 3 then some 2200 else if v = 4 then some 2800 else none
    | Code.B =>
      if v = 1 then some 800 else if v = 2 then some 1100
      else if v = 3 then some 1400 else if v = 4 then some 1800 else none
    | Code.C =>
      if v = 1 then some 600 else if v = 2 then some 900
      else if v = 3 then some 1200 else if v = 4 then some 1500 else none
    | Code.D =>
      if v = 1 then some 500 else if v = 2 then some 750
      else if v = 3 then some 1000 else if v = 4 then some 1300 else none
    | Code.E =>
      if v = 1 then some 9000 else if v = 2 then some 7000
      else if v = 3 then some 4500 else if v = 4 then some 2500 else none
    | Code.F => if v = 3 then some 400 else none
    | Code.G =>
      if v = 1 then some 300 else if v = 2 then some 450
      else if v = 3 then some 600 else if v = 4 then some 800 else none
    | Code.H => if v = 1 then some 1500 else none
    | Code.I =>
      if v = 1 then some 350 else if v = 2 then some 500
      else if v = 3 then some 700 else none
    | Code.J =>
      if v = 1 then some 250 else if v = 2 then some 400
      else if v = 3 then some 550 else none
    | Code.K =>
      if v = 1 then some 900 else if v = 2 then some 1300
      else if v = 3 then some 1700 else none
  compulsoryRates :=
    [(some 600, 1000), (some 1200, 1400), (some 1800, 1800),
     (some 2400, 2200), (none, 2700)]
  reducePriority :=
    [Code.K, Code.J, Code.I, Code.H, Code.G, Code.F, Code.E,
     Code.D, Code.C, Code.B, Code.A]
  maxVoluntaryPremium := 30000

/-- The engine state built by `InsuranceEngine.__init__` (lines 35-58). -/
structure Engine where
  car_age : Int
  displacement : Int
  package : String
  indices : Code → Int

/-- The business/data error of the constructor (`CarDataMismatchException`). -/
structure CarDataMismatch where
  message : String
deriving DecidableEq, Repr

/-- The default indices of `__init__` (lines 52-56): core codes `A`-`D` at 3,
everything else 0. -/
def default_indices : Code → Int :=
  fun k =>
    match k with
    | Code.A | Code.B | Code.C | Code.D => 3
    | _ => 0

/-- `apply_initial_anchoring` (lines 60-79). -/
def apply_initial_anchoring (e : Engine) : Engine :=
  if e.car_age ≤ 5 then
    let idx1 : Code → Int := fun k =>
      match k with
      | Code.E => 2
      | Code.F => 3 | Code.G => 3
      | Code.I => 3 | Code.J => 3 | Code.K => 3
      | _ => e.indices k
    let idx2 : Code → Int :=
      if e.car_age ≤ 3 then Function.update idx1 Code.H 1 else idx1
    { e with package := "deluxe", indices := idx2 }
  else if e.car_age ≤ 10 then
    { e with
      package := "advanced"
      indices := fun k =>
        match k with
        | Code.E => 3 | Code.F => 3 | Code.G => 3
        | _ => e.indices k }
  else
    { e with
      package := "basic"
      indices := Function.update e.indices Code.E 5 }

/-- `InsuranceEngine.__init__` (lines 35-58): derives the car age, rejects an
age outside `[0, 50]` with the business/data error, otherwise anchors the
default profile.  The current year is a parameter (`datetime.now().year`). -/
def init_engine (registration_year current_year displacement : Int) :
    Except CarDataMismatch Engine :=
  if current_year - registration_year < 0 then
    .error { message := "registration year must not exceed the current year" }
  else if 50 < current_year - registration_year then
    .error { message := "car age exceeds the reasonable range" }
  else
    .ok (apply_initial_anchoring
      { car_age := current_year - registration_year
        displacement := displacement, package := ""
        indices := default_indices })

/-- The economy indices of `build_economy_plan` (lines 307-315): every active
forward code forced to tier 1, an active reverse code `E` forced to tier 4,
inactive codes kept at 0. -/
def build_economy_indices (idx : Code → Int) : Code → Int :=
  fun k =>
    if 0 < idx k then (if k = Code.E then 4 else 1) else 0

/-- The voluntary premium of the economy plan (lines 317-340): the sum of the
premiums of the items whose tier has a defined premium — exactly the
contribution sum of the economy indices. -/
def economy_voluntary (tbl : RateTable) (idx : Code → Int) : Int :=
  voluntary_premium tbl (build_economy_indices idx)

/-- `compute_plan_diff`'s totals (lines 382-392): each total is the sum over
active codes of `options.get(v, 0)`, i.e. the contribution sum; `total_savings`
is their difference. -/
def total_savings (tbl : RateTable) (recIdx ecoIdx : Code → Int) : Int :=
  (allCodes.map fun k => contrib tbl k (recIdx k)).sum
    - (allCodes.map fun k => contrib tbl k (ecoIdx k)).sum

/-- The inner `while` loop of `reduce_premium` (lines 155-172) for one code,
written with a structural fuel argument; `reduce_premium` supplies fuel that
exceeds the loop's strictly decreasing measure, so the fuel never runs out.
Body, faithful to the source: stop when the premium meets the target or the
code is not active; the reverse code `E` is incremented unless at its maximum;
the binary codes `F` and `H` are removed in one shot; any other code is
decremented, stopping at 0. -/
def reduce_while (tbl : RateTable) (disp target : Int) (code : Code) :
    Nat → (Code → Int) → (Code → Int)
  | 0, idx => idx
  | fuel + 1, idx =>
    if final_amount tbl disp idx ≤ target then idx
    else if idx code ≤ 0 then idx
    else if code = Code.E then
      if tbl.maxIndex Code.E ≤ idx Code.E then idx
      else
        reduce_while tbl disp target code fuel
          (Function.update idx Code.E (idx Code.E + 1))
    else if code = Code.F ∨ code = Code.H then
      Function.update idx code 0
    else if idx code - 1 ≤ 0 then Function.update idx code 0
    else
      reduce_while tbl disp target code fuel
        (Function.update idx code (idx code - 1))

/-- Fuel that strictly exceeds the inner loop's measure: for `E` the distance
to the maximum tier, otherwise the current index. -/
def inner_fuel (tbl : RateTable) (code : Code) (idx : Code → Int) : Nat :=
  (if code = Code.E then (tbl.maxIndex Code.E - idx Code.E).toNat
   else (idx code).toNat) + 1

/-- One full inner `while` loop of `reduce_premium` for one code. -/
def reduce_code (tbl : RateTable) (disp target : Int) (code : Code)
    (idx : Code → Int) : Code → Int :=
  reduce_while tbl disp target code (inner_fuel tbl code idx) idx

/-- The outer `for code in REDUCE_PRIORITY` loop of `reduce_premium`
(lines 154-175): run the inner loop for the code, then stop as soon as the
premium meets the target. -/
def reduce_loop (tbl : RateTable) (disp target : Int) :
    List Code → (Code → Int) → (Code → Int)
  | [], idx => idx
  | c :: rest, idx =>
    if final_amount tbl disp (reduce_code tbl disp target c idx) ≤ target then
      reduce_code tbl disp target c idx
    else reduce_loop tbl disp target rest (reduce_code tbl disp target c idx)

/-- `reduce_premium` (lines 152-177): the priority loop followed by
`finalize`. -/
def reduce_premium (tbl : RateTable) (disp : Int) (idx : Code → Int)
    (target : Int) : Code → Int :=
  finalize tbl (reduce_loop tbl disp target tbl.reducePriority idx)

/-- One downgrade step of the Budget Reducer's body, with its guards:
the reverse code `E` moves up one tier when active and below its maximum,
a binary code (`F`, `H`) is removed when active, and any other active code
moves down one tier. -/
inductive DowngradeStep (tbl : RateTable) : Code → (Code → Int) → (Code → Int) → Prop
  | reverseE {idx : Code → Int}
      (h1 : 0 < idx Code.E) (h2 : idx Code.E < tbl.maxIndex Code.E) :
      DowngradeStep tbl Code.E idx
        (Function.update idx Code.E (idx Code.E + 1))
  | binary {idx : Code → Int} {c : Code}
      (hc : c = Code.F ∨ c = Code.H) (h1 : 0 < idx c) :
      DowngradeStep tbl c idx (Function.update idx c 0)
  | forward {idx : Code → Int} {c : Code}
      (hcE : c ≠ Code.E) (hcF : c ≠ Code.F) (hcH : c ≠ Code.H)
      (h1 : 0 < idx c) :
      DowngradeStep tbl c idx (Function.update idx c (idx c - 1))

/-- `n` downgrade steps, each on a code of the list `allowed`. -/
inductive StepSeq (tbl : RateTable) (allowed : List Code) :
    Nat → (Code → Int) → (Code → Int) → Prop
  | refl (idx : Code → Int) : StepSeq tbl allowed 0 idx idx
  | tail {n : Nat} {idx idx1 idx2 : Code → Int} (c : Code)
      (hc : c ∈ allowed) (hstep : DowngradeStep tbl c idx idx1)
      (hrest : StepSeq tbl allowed n idx1 idx2) :
      StepSeq tbl allowed (n + 1) idx idx2

/-- The reducible range of a code at a profile: how many downgrade steps the
Budget Reducer can spend on it — the distance to the maximum tier for the
reverse code `E`, at most one removal for the binary codes `F` and `H`, and
the current index for every other code. -/
def reducible_range (tbl : RateTable) (c : Code) (idx : Code → Int) : Nat :=
  match c with
  | Code.E => (tbl.maxIndex Code.E - idx Code.E).toNat
  | Code.F | Code.H => min (idx c).toNat 1
  | _ => (idx c).toNat

/-- The limit the inner loop drives a code to when the target stays out of
reach: the reverse code `E` to its maximum tier (when active), every other
code to 0 (the binary codes by removal, forward codes by decrements). -/
def code_floor (tbl : RateTable) (c : Code) (v : Int) : Int :=
  if c = Code.E then (if v ≤ 0 then v else tbl.maxIndex Code.E) else 0

/-- The minimum-cost configuration reached by downgrading each code of the
priority list to its limit, in order. -/
def min_config (tbl : RateTable) : List Code → (Code → Int) → (Code → Int)
  | [], idx => idx
  | c :: rest, idx =>
    min_config tbl rest (Function.update idx c (code_floor tbl c (idx c)))

/-- The inner helper `normalize` of `calculate_radar` (lines 213-221); the
float arithmetic of the source is modelled over `ℚ`. -/
def normalize (tbl : RateTable) (code : Code) (index : Int) : ℚ :=
  if index ≤ 0 then 0
  else
    let max_val := tbl.maxIndex code
    if max_val ≤ 1 then (if 1 ≤ index then 100 else 0)
    else if code = Code.E ∨ code = Code.H then
      ((max_val : ℚ) - (index : ℚ)) / ((max_val : ℚ) - 1) * 100
    else ((index : ℚ) - 1) / ((max_val : ℚ) - 1) * 100

/-- Python's `round`: round half to even. -/
def pyRound (q : ℚ) : Int :=
  let f := ⌊q⌋
  let r := q - (f : ℚ)
  if r < 1 / 2 then f
  else if 1 / 2 < r then f + 1
  else if f % 2 = 0 then f else f + 1

/-- The inner helper `to_visual` (lines 223-227): map a 0-100 raw value to the
70-95 band, add the random jitter (here a parameter), clamp back into
`[70, 95]`. -/
def to_visual (raw : ℚ) (jitter : Int) : Int :=
  let base := pyRound (70 + raw / 100 * 25)
  max 70 (min 95 (base + jitter))

/-- The `passenger_preference` raw aggregate (line 230). -/
def passenger_raw (tbl : RateTable) (idx : Code → Int) : ℚ :=
  (normalize tbl Code.C (idx Code.C) + normalize tbl Code.D (idx Code.D)) / 2

/-- The `vehicle_protection` raw aggregate (lines 232-241): weighted average of
the active codes among `E`, `F`, `H`, with weight 0.3 for `H`, or 0 when none
is active. -/
def vehicle_raw (tbl : RateTable) (idx : Code → Int) : ℚ :=
  let weights : Code → ℚ := fun c => if c = Code.H then 3 / 10 else 1
  let pairs :=
    ([Code.E, Code.F, Code.H].filter fun c => 0 < idx c).map
      (fun c => (normalize tbl c (idx c), weights c))
  if pairs = [] then 0
  else (pairs.map fun p => p.1 * p.2).sum / (pairs.map Prod.snd).sum

/-- The `liability_concern` raw aggregate (lines 243-247): `A` and `B` always,
`K` when active. -/
def liability_raw (tbl : RateTable) (idx : Code → Int) : ℚ :=
  let vals :=
    [normalize tbl Code.A (idx Code.A), normalize tbl Code.B (idx Code.B)]
      ++ (if 0 < idx Code.K then [normalize tbl Code.K (idx Code.K)] else [])
  vals.sum / (vals.length : ℚ)

/-- The `service_needs` raw aggregate (lines 249-251): average over the active
codes among `G`, `I`, `J`, or 0 when none is active. -/
def service_raw (tbl : RateTable) (idx : Code → Int) : ℚ :=
  let vals :=
    ([Code.G, Code.I, Code.J].filter fun c => 0 < idx c).map
      (fun c => normalize tbl c (idx c))
  if vals = [] then 0 else vals.sum / (vals.length : ℚ)

/-- The `budget_profile` raw aggregate (lines 253-260): voluntary premium over
`MAX_VOLUNTARY_PREMIUM`, capped at 100. -/
def budget_raw (tbl : RateTable) (idx : Code → Int) : ℚ :=
  min ((voluntary_premium tbl idx : ℚ) / (tbl.maxVoluntaryPremium : ℚ) * 100) 100

/-- The five dimension scores returned by `calculate_radar`. -/
structure RadarScores where
  passenger_preference : Int
  vehicle_protection : Int
  liability_concern : Int
  service_needs : Int
  budget_profile : Int
deriving DecidableEq, Repr

/-- `calculate_radar` (lines 204-268); the five `random.randint(-2, 2)` draws
are parameters, one per dimension. -/
def calculate_radar (tbl : RateTable) (idx : Code → Int)
    (jp jv jl js jb : Int) : RadarScores where
  passenger_preference := to_visual (passenger_raw tbl idx) jp
  vehicle_protection := to_visual (vehicle_raw tbl idx) jv
  liability_concern := to_visual (liability_raw tbl idx) jl
  service_needs := to_visual (service_raw tbl idx) js
  budget_profile := to_visual (budget_raw tbl idx) jb

/-- The all-zero profile. -/
def zero_profile : Code → Int := fun _ => 0

/-! ### Helper lemmas -/

lemma contrib_nonneg (tbl : RateTable)
    (hpos : ∀ k v p, tbl.options k v = some p → 0 ≤ p) (k : Code) (v : Int) :
    0 ≤ contrib tbl k v := by
  unfold contrib
  split
  · cases h : tbl.options k v with
    | some p => exact hpos k v p h
    | none => exact le_refl 0
  · exact le_refl 0

lemma voluntary_mono (tbl : RateTable) {idx1 idx2 : Code → Int}
    (h : ∀ k, contrib tbl k (idx2 k) ≤ contrib tbl k (idx1 k)) :
    voluntary_premium tbl idx2 ≤ voluntary_premium tbl idx1 :=
  List.sum_le_sum fun k _ => h k

lemma final_amount_def (tbl : RateTable) (disp : Int) (idx : Code → Int) :
    final_amount tbl disp idx =
      get_compulsory_premium tbl disp + voluntary_premium tbl idx := rfl

lemma final_amount_mono (tbl : RateTable) (disp : Int) {idx1 idx2 : Code → Int}
    (h : ∀ k, contrib tbl k (idx2 k) ≤ contrib tbl k (idx1 k)) :
    final_amount tbl disp idx2 ≤ final_amount tbl disp idx1 := by
  simp only [final_amount_def]
  exact add_le_add_left (voluntary_mono tbl h) _

lemma Inv.update (tbl : RateTable) {idx : Code → Int} (hInv : Inv tbl idx)
    {c : Code} {v : Int} (hv : v = 0 ∨ (1 ≤ v ∧ v ≤ tbl.maxIndex c)) :
    Inv tbl (Function.update idx c v) := by
  intro k
  rcases eq_or_ne k c with h | h
  · subst h; simpa [Function.update_same] using hv
  · simpa [Function.update_noteq h] using hInv k

lemma finalize_id (tbl : RateTable) {idx : Code → Int} (hInv : Inv tbl idx) :
    finalize tbl idx = idx := by
  funext k
  rcases hInv k with h | ⟨h1, h2⟩ <;> simp only [finalize] <;> split_ifs <;> omega

/-! ### C1: the Boundary Normalizer establishes the tier-range invariant -/

/-- C1.  For any profile whatsoever (so in particular for every profile
reachable by any sequence of anchoring, questionnaire application and budget
reduction), after `finalize` has run every code's index is 0 or lies in
`[1, MAX_INDEX[k]]`; `finalize` maps a negative index to 0 and clamps a
positive index to `max 1 (min (MAX_INDEX[k]) v) ∈ [1, MAX_INDEX[k]]`. -/
theorem finalize_establishes_inv (tbl : RateTable)
    (hmax : ∀ k, 1 ≤ tbl.maxIndex k) (idx : Code → Int) :
    Inv tbl (finalize tbl idx)
    ∧ (∀ k, idx k < 0 → finalize tbl idx k = 0)
    ∧ (∀ k, 0 < idx k →
        finalize tbl idx k = max 1 (min (tbl.maxIndex k) (idx k))
        ∧ 1 ≤ finalize tbl idx k ∧ finalize tbl idx k ≤ tbl.maxIndex k) := by
  refine ⟨fun k => ?_, fun k h => ?_, fun k h => ?_⟩
  · have := hmax k
    simp only [finalize]
    split_ifs <;> omega
  · simp only [finalize]
    split_ifs <;> omega
  · have := hmax k
    simp only [finalize]
    split_ifs <;> constructor <;> omega

/-- Witness for C1 at the modelled table and a concrete raw profile. -/
theorem finalize_establishes_inv_witness :
    (∀ k, 1 ≤ specTable.maxIndex k)
    ∧ Inv specTable
        (finalize specTable (fun k => if k = Code.A then -3 else 7)) :=
  ⟨by decide,
   (finalize_establishes_inv specTable (by decide)
     (fun k => if k = Code.A then -3 else 7)).1⟩

/-! ### C5: engine construction succeeds exactly for ages in [0, 50] -/

/-- C5.  For every registration year, current year and positive displacement,
construction succeeds exactly when the derived age `current - registration`
lies in `[0, 50]`; outside that range it fails, and by the return type
`Except CarDataMismatch Engine` the business/data error is the only error
path. -/
theorem init_engine_ok_iff (ry cy d : Int) (hd : 0 < d) :
    ((∃ e, init_engine ry cy d = Except.ok e) ↔ 0 ≤ cy - ry ∧ cy - ry ≤ 50)
    ∧ ((cy - ry < 0 ∨ 50 < cy - ry) →
        ∃ err, init_engine ry cy d = Except.error err) := by
  unfold init_engine
  constructor
  · constructor
    · rintro ⟨e, he⟩
      by_contra hcon
      rw [not_and_or] at hcon
      split_ifs at he <;> simp_all <;> omega
    · rintro ⟨h1, h2⟩
      rw [if_neg (by omega), if_neg (by omega)]
      exact ⟨_, rfl⟩
  · intro h
    rcases h with h | h
    · rw [if_pos (by omega)]
      exact ⟨_, rfl⟩
    · rw [if_neg (by omega), if_pos (by omega)]
      exact ⟨_, rfl⟩

/-- Witness for C5 at a concrete in-range input and a concrete out-of-range
input. -/
theorem init_engine_ok_iff_witness :
    (0 < (1600 : Int))
    ∧ (∃ e, init_engine 2020 2026 1600 = Except.ok e)
    ∧ (∃ err, init_engine 2080 2026 1600 = Except.error err) :=
  ⟨by decide,
   ((init_engine_ok_iff 2020 2026 1600 (by decide)).1).2 (by decide),
   (init_engine_ok_iff 2080 2026 1600 (by decide)).2 (by decide)⟩

/-! ### C9: anchoring for ages above 10 -/

/-- The profile the spec describes for the basic package: the four core codes
at tier 3, the reverse own-damage code at its maximum ("not covered") tier 5,
all other codes inactive. -/
def basic_profile : Code → Int :=
  fun k =>
    match k with
    | Code.A | Code.B | Code.C | Code.D => 3
    | Code.E => 5
    | _ => 0

/-- C9.  For every age above 10 (and at most 50, so that construction
succeeds), anchoring assigns package "basic" and produces exactly the four
core codes at tier 3 with the reverse code `E` forced to 5 — the maximum
("not covered") tier of the modelled table — and every other code at 0. -/
lemma anchoring_case_basic (e : Engine) (h : 10 < e.car_age) :
    apply_initial_anchoring e =
      { e with package := "basic"
               indices := Function.update e.indices Code.E 5 } := by
  unfold apply_initial_anchoring
  rw [if_neg (by omega), if_neg (by omega)]

theorem anchoring_basic (ry cy d : Int) (h1 : 10 < cy - ry)
    (h2 : cy - ry ≤ 50) :
    ∃ e, init_engine ry cy d = Except.ok e
      ∧ e.package = "basic"
      ∧ (∀ k, e.indices k = basic_profile k)
      ∧ e.indices Code.E = specTable.maxIndex Code.E := by
  unfold init_engine
  rw [if_neg (by omega), if_neg (by omega)]
  rw [anchoring_case_basic _ (by simpa using h1)]
  refine ⟨_, rfl, rfl, ?_, ?_⟩
  · intro k
    cases k <;> simp [Function.update_apply, default_indices, basic_profile]
  · simp [Function.update_same]
    rfl

/-- Witness for C9 at age 12. -/
theorem anchoring_basic_witness :
    (10 < (2026 : Int) - 2014 ∧ (2026 : Int) - 2014 ≤ 50)
    ∧ ∃ e, init_engine 2014 2026 1600 = Except.ok e ∧ e.package = "basic" :=
  ⟨by decide,
   match anchoring_basic 2014 2026 1600 (by decide) (by decide) with
   | ⟨e, hok, hpkg, _, _⟩ => ⟨e, hok, hpkg⟩⟩

/-! ### C10: the Budget Reducer is the identity when the ceiling already holds -/

lemma reduce_while_stop {tbl : RateTable} {disp target : Int} {code : Code}
    {idx : Code → Int} (h : final_amount tbl disp idx ≤ target) :
    ∀ fuel, reduce_while tbl disp target code fuel idx = idx
  | 0 => rfl
  | fuel + 1 => by simp [reduce_while, h]

/-- C10.  For every finalized profile whose premium already meets the target,
`reduce_premium` leaves every code's index unchanged. -/
theorem reduce_premium_id (tbl : RateTable) (disp target : Int)
    (idx : Code → Int) (hInv : Inv tbl idx)
    (h : final_amount tbl disp idx ≤ target) :
    reduce_premium tbl disp idx target = idx := by
  unfold reduce_premium
  have hloop : ∀ pr, reduce_loop tbl disp target pr idx = idx := by
    intro pr
    cases pr with
    | nil => rfl
    | cons c rest =>
      unfold reduce_loop reduce_code
      rw [reduce_while_stop h, if_pos h]
  rw [hloop, finalize_id tbl hInv]

/-- Witness for C10: a deluxe-style finalized profile whose premium meets a
large target is returned unchanged. -/
theorem reduce_premium_id_witness :
    Inv specTable basic_profile
    ∧ final_amount specTable 1600 basic_profile ≤ 100000
    ∧ reduce_premium specTable 1600 basic_profile 100000 = basic_profile :=
  ⟨by decide, by decide,
   reduce_premium_id specTable 1600 100000 basic_profile (by decide) (by decide)⟩

/-! ### C6: the premium calculator -/

/-- The claim's compulsory-table predicate: a pair matches a displacement when
its threshold is the "no upper bound" sentinel or at least the displacement. -/
def matches_disp (d : Int) (tp : Option Int × Int) : Bool :=
  match tp.1 with
  | none => true
  | some thr => decide (d ≤ thr)

/-- The claim's description of the compulsory premium: the premium of the
first matching pair, if any. -/
def compulsory_spec (rates : List (Option Int × Int)) (d : Int) : Option Int :=
  (rates.find? (matches_disp d)).map Prod.snd

/-- The claim's description of the voluntary premium: the sum, over the codes
with positive index whose current index has a defined premium, of that
premium. -/
def voluntary_spec (tbl : RateTable) (idx : Code → Int) : Int :=
  ((allCodes.filter fun k =>
      decide (0 < idx k) && (tbl.options k (idx k)).isSome).map
    fun k => (tbl.options k (idx k)).getD 0).sum

lemma compulsory_scan_eq (rates : List (Option Int × Int)) (d : Int) :
    compulsory_scan rates d = compulsory_spec rates d := by
  induction rates with
  | nil => rfl
  | cons tp rest ih =>
    obtain ⟨t, p⟩ := tp
    cases t with
    | none => simp [compulsory_scan, compulsory_spec, matches_disp, List.find?]
    | some thr =>
      by_cases h : d ≤ thr
      · simp [compulsory_scan, compulsory_spec, matches_disp, List.find?, h]
      · simpa [compulsory_scan, compulsory_spec, matches_disp, List.find?, h]
          using ih

lemma contrib_eq_ite (tbl : RateTable) (k : Code) (v : Int) :
    contrib tbl k v =
      if 0 < v ∧ (tbl.options k v).isSome then (tbl.options k v).getD 0
      else 0 := by
  unfold contrib
  cases h : tbl.options k v <;> split_ifs <;> simp_all

lemma filter_map_sum (p : Code → Bool) (f : Code → Int) (l : List Code) :
    ((l.filter p).map f).sum = (l.map fun k => if p k then f k else 0).sum := by
  induction l with
  | nil => rfl
  | cons c rest ih => by_cases h : p c <;> simp [List.filter_cons, h, ih]

lemma voluntary_spec_eq (tbl : RateTable) (idx : Code → Int) :
    voluntary_spec tbl idx = voluntary_premium tbl idx := by
  unfold voluntary_spec voluntary_premium
  rw [filter_map_sum]
  congr 1
  refine List.map_congr_left fun k _ => ?_
  rw [contrib_eq_ite]
  by_cases h1 : 0 < idx k <;> by_cases h2 : (tbl.options k (idx k)).isSome <;>
    simp [h1, h2]

/-- C6.  For every profile and displacement and a nonempty compulsory table:
the compulsory premium is the first matching pair's premium, or the last
pair's premium when no pair matches; the voluntary premium is the sum of the
defined premiums of the active codes (undefined tiers contribute nothing);
and subtotal = final_amount = compulsory + voluntary.  (`calculate_premium`
is a function of the profile in this embedding: it has no side effects.) -/
theorem calculate_premium_spec (tbl : RateTable) (disp : Int)
    (idx : Code → Int) (hne : tbl.compulsoryRates ≠ []) :
    (calculate_premium tbl disp idx).compulsory =
      (match compulsory_spec tbl.compulsoryRates disp with
       | some p => p
       | none => (tbl.compulsoryRates.getLast hne).2)
    ∧ (calculate_premium tbl disp idx).voluntary = voluntary_spec tbl idx
    ∧ (calculate_premium tbl disp idx).subtotal =
        (calculate_premium tbl disp idx).compulsory
          + (calculate_premium tbl disp idx).voluntary
    ∧ (calculate_premium tbl disp idx).final_amount =
        (calculate_premium tbl disp idx).subtotal := by
  refine ⟨?_, (voluntary_spec_eq tbl idx).symm, rfl, rfl⟩
  show get_compulsory_premium tbl disp = _
  unfold get_compulsory_premium
  rw [compulsory_scan_eq]
  cases h : compulsory_spec tbl.compulsoryRates disp with
  | some p => rfl
  | none => rw [List.getLast?_eq_getLast _ hne]; rfl

/-- Witness for C6 at the modelled table and a concrete profile. -/
theorem calculate_premium_spec_witness :
    specTable.compulsoryRates ≠ []
    ∧ (calculate_premium specTable 1600 basic_profile).voluntary =
        voluntary_spec specTable basic_profile :=
  ⟨by decide,
   (calculate_premium_spec specTable 1600 basic_profile (by decide)).2.1⟩

/-! ### Lemmas about the inner reduction loop -/

lemma reduce_while_apply_ne (tbl : RateTable) (disp target : Int) (code : Code)
    {c' : Code} (h : c' ≠ code) :
    ∀ fuel idx, reduce_while tbl disp target code fuel idx c' = idx c' := by
  intro fuel
  induction fuel with
  | zero => intro idx; rfl
  | succ m ih =>
    intro idx
    unfold reduce_while
    split_ifs with h1 h2 h3 h4 h5 h6
    · rfl
    · rfl
    · rfl
    · rw [ih, Function.update_noteq (h3 ▸ h)]
    · rw [Function.update_noteq h]
    · rw [Function.update_noteq h]
    · rw [ih, Function.update_noteq h]

lemma reduce_code_apply_ne (tbl : RateTable) (disp target : Int) (code : Code)
    {c' : Code} (h : c' ≠ code) (idx : Code → Int) :
    reduce_code tbl disp target code idx c' = idx c' :=
  reduce_while_apply_ne tbl disp target code h _ idx

lemma reduce_while_E_le (tbl : RateTable) (disp target : Int) :
    ∀ fuel idx,
      idx Code.E ≤ reduce_while tbl disp target Code.E fuel idx Code.E := by
  intro fuel
  induction fuel with
  | zero => intro idx; exact le_refl _
  | succ m ih =>
    intro idx
    unfold reduce_while
    split_ifs with h1 h2 h3 h4 h5 h6
    · exact le_refl _
    · exact le_refl _
    · exact le_refl _
    · have := ih (Function.update idx Code.E (idx Code.E + 1))
      rw [Function.update_same] at this
      omega
    · exact absurd rfl h3
    · exact absurd rfl h3
    · exact absurd rfl h3

lemma reduce_while_binary_cases (tbl : RateTable) (disp target : Int)
    {code : Code} (hc : code = Code.F ∨ code = Code.H) (fuel : Nat)
    (idx : Code → Int) :
    reduce_while tbl disp target code fuel idx code = idx code
    ∨ reduce_while tbl disp target code fuel idx code = 0 := by
  cases fuel with
  | zero => exact Or.inl rfl
  | succ m =>
    have hcE : code ≠ Code.E := by
      rcases hc with h | h <;> subst h <;> decide
    unfold reduce_while
    rw [if_neg hcE, if_pos hc]
    split_ifs with h1 h2
    · exact Or.inl rfl
    · exact Or.inl rfl
    · rw [Function.update_same]; exact Or.inr rfl

lemma reduce_while_fwd_le (tbl : RateTable) (disp target : Int) {code : Code}
    (hcE : code ≠ Code.E) :
    ∀ fuel idx,
      reduce_while tbl disp target code fuel idx code ≤ idx code := by
  intro fuel
  induction fuel with
  | zero => intro idx; exact le_refl _
  | succ m ih =>
    intro idx
    unfold reduce_while
    rw [if_neg hcE]
    split_ifs with h1 h2 h3 h4
    · exact le_refl _
    · exact le_refl _
    · rw [Function.update_same]; omega
    · rw [Function.update_same]; omega
    · have := ih (Function.update idx code (idx code - 1))
      rw [Function.update_same] at this
      omega

lemma reduce_while_inv (tbl : RateTable) (disp target : Int) (code : Code) :
    ∀ fuel idx, Inv tbl idx →
      Inv tbl (reduce_while tbl disp target code fuel idx) := by
  intro fuel
  induction fuel with
  | zero => intro idx hInv; exact hInv
  | succ m ih =>
    intro idx hInv
    unfold reduce_while
    split_ifs with h1 h2 h3 h4 h5 h6
    · exact hInv
    · exact hInv
    · exact hInv
    · subst h3
      refine ih _ (Inv.update tbl hInv (Or.inr ⟨by omega, by omega⟩))
    · exact Inv.update tbl hInv (Or.inl rfl)
    · exact Inv.update tbl hInv (Or.inl rfl)
    · refine ih _ (Inv.update tbl hInv (Or.inr ⟨by omega, ?_⟩))
      rcases hInv code with h | ⟨ha, hb⟩ <;> omega

lemma reduce_code_inv (tbl : RateTable) (disp target : Int) (code : Code)
    (idx : Code → Int) (hInv : Inv tbl idx) :
    Inv tbl (reduce_code tbl disp target code idx) :=
  reduce_while_inv tbl disp target code _ idx hInv

lemma reduce_loop_inv (tbl : RateTable) (disp target : Int) :
    ∀ (pr : List Code) (idx : Code → Int), Inv tbl idx →
      Inv tbl (reduce_loop tbl disp target pr idx) := by
  intro pr
  induction pr with
  | nil => intro idx hInv; exact hInv
  | cons c rest ih =>
    intro idx hInv
    unfold reduce_loop
    split_ifs with h
    · exact reduce_code_inv tbl disp target c idx hInv
    · exact ih _ (reduce_code_inv tbl disp target c idx hInv)

/-! ### Step counting for the Budget Reducer -/

lemma StepSeq.comp {tbl : RateTable} {allowed : List Code}
    {n m : Nat} {a b c : Code → Int} (h1 : StepSeq tbl allowed n a b)
    (h2 : StepSeq tbl allowed m b c) : StepSeq tbl allowed (n + m) a c := by
  induction h1 with
  | refl _ => simpa using h2
  | tail d hd hstep _ ih =>
    simpa [Nat.succ_add] using StepSeq.tail d hd hstep (ih h2)

lemma reducible_range_fwd (tbl : RateTable) {c : Code} (hE : c ≠ Code.E)
    (hF : c ≠ Code.F) (hH : c ≠ Code.H) (idx : Code → Int) :
    reducible_range tbl c idx = (idx c).toNat := by
  cases c <;> simp_all [reducible_range]

lemma reducible_range_bin (tbl : RateTable) {c : Code}
    (h : c = Code.F ∨ c = Code.H) (idx : Code → Int) :
    reducible_range tbl c idx = min (idx c).toNat 1 := by
  rcases h with h | h <;> subst h <;> rfl

lemma reducible_range_coord (tbl : RateTable) (c : Code) {i1 i2 : Code → Int}
    (h : i1 c = i2 c) : reducible_range tbl c i1 = reducible_range tbl c i2 := by
  cases c <;> simp [reducible_range, h]

lemma reduce_while_steps (tbl : RateTable) (disp target : Int)
    {allowed : List Code} {code : Code} (hc : code ∈ allowed) :
    ∀ fuel idx,
      ∃ n, StepSeq tbl allowed n idx
          (reduce_while tbl disp target code fuel idx)
        ∧ n ≤ reducible_range tbl code idx := by
  intro fuel
  induction fuel with
  | zero => intro idx; exact ⟨0, .refl idx, Nat.zero_le _⟩
  | succ m ih =>
    intro idx
    unfold reduce_while
    split_ifs with h1 h2 h3 h4 h5 h6
    · exact ⟨0, .refl idx, Nat.zero_le _⟩
    · exact ⟨0, .refl idx, Nat.zero_le _⟩
    · exact ⟨0, .refl idx, Nat.zero_le _⟩
    · subst h3
      obtain ⟨n, hseq, hle⟩ := ih (Function.update idx Code.E (idx Code.E + 1))
      refine ⟨n + 1, StepSeq.tail Code.E hc
        (DowngradeStep.reverseE (by omega) (by omega)) hseq, ?_⟩
      simp only [reducible_range] at hle ⊢
      rw [Function.update_same] at hle
      omega
    · refine ⟨1, StepSeq.tail code hc (DowngradeStep.binary h5 (by omega))
        (.refl _), ?_⟩
      rw [reducible_range_bin tbl h5]
      omega
    · push_neg at h5
      have heq : Function.update idx code 0
          = Function.update idx code (idx code - 1) := by
        have h0 : idx code - 1 = 0 := by omega
        rw [h0]
      rw [heq]
      refine ⟨1, StepSeq.tail code hc
        (DowngradeStep.forward h3 h5.1 h5.2 (by omega)) (.refl _), ?_⟩
      rw [reducible_range_fwd tbl h3 h5.1 h5.2]
      omega
    · push_neg at h5
      obtain ⟨n, hseq, hle⟩ := ih (Function.update idx code (idx code - 1))
      refine ⟨n + 1, StepSeq.tail code hc
        (DowngradeStep.forward h3 h5.1 h5.2 (by omega)) hseq, ?_⟩
      rw [reducible_range_fwd tbl h3 h5.1 h5.2] at hle ⊢
      rw [Function.update_same] at hle
      omega

lemma reduce_loop_steps (tbl : RateTable) (disp target : Int)
    {allowed : List Code} :
    ∀ (pr : List Code) (idx : Code → Int), (∀ c ∈ pr, c ∈ allowed) →
      pr.Nodup →
      ∃ n, StepSeq tbl allowed n idx (reduce_loop tbl disp target pr idx)
        ∧ n ≤ (pr.map fun c => reducible_range tbl c idx).sum := by
  intro pr
  induction pr with
  | nil => intro idx _ _; exact ⟨0, .refl idx, Nat.zero_le _⟩
  | cons c rest ih =>
    intro idx hsub hnd
    obtain ⟨n1, hseq1, hle1⟩ :=
      reduce_while_steps tbl disp target (hsub c (List.mem_cons_self c rest))
        (inner_fuel tbl c idx) idx
    unfold reduce_loop
    split_ifs with h
    · exact ⟨n1, hseq1, by simp only [List.map_cons, List.sum_cons]; omega⟩
    · obtain ⟨n2, hseq2, hle2⟩ :=
        ih (reduce_code tbl disp target c idx)
          (fun c' hc' => hsub c' (List.mem_cons_of_mem c hc'))
          (List.Nodup.of_cons hnd)
      have hranges :
          (rest.map fun c' =>
            reducible_range tbl c' (reduce_code tbl disp target c idx))
          = rest.map fun c' => reducible_range tbl c' idx := by
        refine List.map_congr_left fun c' hc' => ?_
        have hne : c' ≠ c := by
          intro hcc
          subst hcc
          exact (List.nodup_cons.mp hnd).1 hc'
        exact reducible_range_coord tbl c'
          (reduce_code_apply_ne tbl disp target c hne idx)
      rw [hranges] at hle2
      refine ⟨n1 + n2, hseq1.comp hseq2, ?_⟩
      simp only [List.map_cons, List.sum_cons]
      omega

lemma map_sum_le_allCodes (f : Code → Nat) {pr : List Code}
    (h : pr.Nodup) : (pr.map f).sum ≤ (allCodes.map f).sum := by
  have hsub : pr ⊆ allCodes := by
    intro c _
    cases c <;> simp [allCodes]
  obtain ⟨l, hperm, hsl⟩ := List.subperm_of_subset h hsub
  calc (pr.map f).sum = (l.map f).sum := ((hperm.map f).sum_eq).symm
    _ ≤ (allCodes.map f).sum :=
        (hsl.map f).sum_le_sum fun a _ => Nat.zero_le a

lemma contrib_zero (tbl : RateTable) (k : Code) : contrib tbl k 0 = 0 := by
  simp [contrib]

/-- A downgrade step from a profile satisfying the tier invariant never
increases the total premium, provided tier premiums behave as the spec
describes: non-decreasing along in-range tiers of forward codes,
non-increasing along in-range tiers of the reverse code, never negative. -/
lemma downgrade_step_premium_le (tbl : RateTable) (disp : Int)
    (hfwd : ∀ k, k ≠ Code.E → ∀ v, 1 ≤ v → v ≤ tbl.maxIndex k →
      contrib tbl k (v - 1) ≤ contrib tbl k v)
    (hrev : ∀ v, 1 ≤ v → v < tbl.maxIndex Code.E →
      contrib tbl Code.E (v + 1) ≤ contrib tbl Code.E v)
    (hpos : ∀ k v p, tbl.options k v = some p → 0 ≤ p)
    {c : Code} {i j : Code → Int} (hInv : Inv tbl i)
    (hstep : DowngradeStep tbl c i j) :
    final_amount tbl disp j ≤ final_amount tbl disp i := by
  cases hstep with
  | reverseE h1 h2 =>
    refine final_amount_mono tbl disp fun k => ?_
    rcases eq_or_ne k Code.E with rfl | hk
    · rw [Function.update_same]
      exact hrev (i Code.E) (by omega) h2
    · rw [Function.update_noteq hk]
  | binary hc h1 =>
    refine final_amount_mono tbl disp fun k => ?_
    rcases eq_or_ne k c with rfl | hk
    · rw [Function.update_same, contrib_zero]
      exact contrib_nonneg tbl hpos k (i k)
    · rw [Function.update_noteq hk]
  | forward hcE hcF hcH h1 =>
    refine final_amount_mono tbl disp fun k => ?_
    rcases eq_or_ne k c with rfl | hk
    · rw [Function.update_same]
      refine hfwd k hcE (i k) (by omega) ?_
      rcases hInv k with h | ⟨ha, hb⟩ <;> omega
    · rw [Function.update_noteq hk]

/-! ### C2: monotone premium and bounded, terminating reduction -/

/-- C2.  For every finalized profile and positive target: (a) every individual
downgrade step of the Budget Reducer's body is premium-non-increasing; (b) the
run of `reduce_premium`'s loop is a finite sequence of such steps — so the
reducer terminates, as the totality of `reduce_loop` also shows — whose length
is bounded by the sum, over all codes, of the code's reducible range.
Premium-table hypotheses as described by the spec: forward-code premiums
non-decreasing in the tier, reverse-code premiums non-increasing, premiums
non-negative; the priority list has no duplicate codes. -/
theorem reduce_premium_monotone_bounded (tbl : RateTable) (disp target : Int)
    (idx : Code → Int)
    (hfwd : ∀ k, k ≠ Code.E → ∀ v, 1 ≤ v → v ≤ tbl.maxIndex k →
      contrib tbl k (v - 1) ≤ contrib tbl k v)
    (hrev : ∀ v, 1 ≤ v → v < tbl.maxIndex Code.E →
      contrib tbl Code.E (v + 1) ≤ contrib tbl Code.E v)
    (hpos : ∀ k v p, tbl.options k v = some p → 0 ≤ p)
    (hnd : tbl.reducePriority.Nodup)
    (hInv : Inv tbl idx) (htarget : 0 < target) :
    (∀ (c : Code) (i j : Code → Int), Inv tbl i → DowngradeStep tbl c i j →
      final_amount tbl disp j ≤ final_amount tbl disp i)
    ∧ ∃ n, StepSeq tbl tbl.reducePriority n idx
          (reduce_loop tbl disp target tbl.reducePriority idx)
        ∧ n ≤ (allCodes.map fun c => reducible_range tbl c idx).sum := by
  constructor
  · intro c i j hi hstep
    exact downgrade_step_premium_le tbl disp hfwd hrev hpos hi hstep
  · obtain ⟨n, hseq, hle⟩ :=
      reduce_loop_steps tbl disp target tbl.reducePriority idx
        (fun c hc => hc) hnd
    exact ⟨n, hseq,
      hle.trans (map_sum_le_allCodes (fun c => reducible_range tbl c idx) hnd)⟩

lemma specTable_hfwd : ∀ k, k ≠ Code.E → ∀ v : Int, 1 ≤ v →
    v ≤ specTable.maxIndex k →
    contrib specTable k (v - 1) ≤ contrib specTable k v := by
  intro k hk v h1 h2
  cases k
  case E => exact absurd rfl hk
  all_goals
    norm_num [specTable] at h2
    interval_cases v <;> decide

lemma specTable_hrev : ∀ v : Int, 1 ≤ v → v < specTable.maxIndex Code.E →
    contrib specTable Code.E (v + 1) ≤ contrib specTable Code.E v := by
  intro v h1 h2
  norm_num [specTable] at h2
  interval_cases v <;> decide

lemma specTable_hpos :
    ∀ (k : Code) (v p : Int), specTable.options k v = some p → 0 ≤ p := by
  intro k v p h
  cases k <;> simp only [specTable] at h <;> split_ifs at h <;>
    simp_all <;> omega

/-- Witness for C2 at the modelled table and the basic anchored profile. -/
theorem reduce_premium_monotone_bounded_witness :
    Inv specTable basic_profile ∧ (0 : Int) < 1000
    ∧ ∃ n, StepSeq specTable specTable.reducePriority n basic_profile
          (reduce_loop specTable 1600 1000 specTable.reducePriority
            basic_profile)
        ∧ n ≤ (allCodes.map fun c =>
            reducible_range specTable c basic_profile).sum :=
  ⟨by decide, by decide,
   (reduce_premium_monotone_bounded specTable 1600 1000 basic_profile
      specTable_hfwd specTable_hrev specTable_hpos (by decide) (by decide)
      (by decide)).2⟩

/-! ### C3: the Budget Reducer never upgrades -/

/-- `b` does not offer better coverage than `a` on any code: the reverse code
`E` only moved up or stayed, the binary codes `F` and `H` stayed or were
removed, every other code only moved down or stayed. -/
def NoUpgrade (a b : Code → Int) : Prop :=
  a Code.E ≤ b Code.E
  ∧ (b Code.F = a Code.F ∨ b Code.F = 0)
  ∧ (b Code.H = a Code.H ∨ b Code.H = 0)
  ∧ ∀ k, k ≠ Code.E → k ≠ Code.F → k ≠ Code.H → b k ≤ a k

lemma NoUpgrade.trans {a b c : Code → Int} (h1 : NoUpgrade a b)
    (h2 : NoUpgrade b c) : NoUpgrade a c := by
  obtain ⟨e1, f1, h1', k1⟩ := h1
  obtain ⟨e2, f2, h2', k2⟩ := h2
  refine ⟨le_trans e1 e2, ?_, ?_, fun k hE hF hH => le_trans (k2 k hE hF hH) (k1 k hE hF hH)⟩
  · rcases f2 with h | h <;> rw [h] <;> simp [f1]
  · rcases h2' with h | h <;> rw [h] <;> simp [h1']

lemma reduce_code_no_upgrade (tbl : RateTable) (disp target : Int) (c : Code)
    (idx : Code → Int) : NoUpgrade idx (reduce_code tbl disp target c idx) := by
  refine ⟨?_, ?_, ?_, ?_⟩
  · rcases eq_or_ne Code.E c with rfl | h
    · exact reduce_while_E_le tbl disp target _ idx
    · rw [reduce_code_apply_ne tbl disp target c h idx]
  · rcases eq_or_ne Code.F c with rfl | h
    · exact reduce_while_binary_cases tbl disp target (Or.inl rfl) _ idx
    · rw [reduce_code_apply_ne tbl disp target c h idx]
      exact Or.inl rfl
  · rcases eq_or_ne Code.H c with rfl | h
    · exact reduce_while_binary_cases tbl disp target (Or.inr rfl) _ idx
    · rw [reduce_code_apply_ne tbl disp target c h idx]
      exact Or.inl rfl
  · intro k hE hF hH
    rcases eq_or_ne k c with rfl | h
    · exact reduce_while_fwd_le tbl disp target hE _ idx
    · rw [reduce_code_apply_ne tbl disp target c h idx]

lemma reduce_loop_no_upgrade (tbl : RateTable) (disp target : Int) :
    ∀ (pr : List Code) (idx : Code → Int),
      NoUpgrade idx (reduce_loop tbl disp target pr idx) := by
  intro pr
  induction pr with
  | nil =>
    intro idx
    exact ⟨le_refl _, Or.inl rfl, Or.inl rfl, fun k _ _ _ => le_refl _⟩
  | cons c rest ih =>
    intro idx
    unfold reduce_loop
    split_ifs with h
    · exact reduce_code_no_upgrade tbl disp target c idx
    · exact (reduce_code_no_upgrade tbl disp target c idx).trans (ih _)

/-- C3 (amended to finalized profiles).  For every profile satisfying the tier
invariant and every target, `reduce_premium` never improves coverage: the
reverse code `E` only moves up or stays, the binary codes `F` and `H` only
stay or drop to 0, and every other code only moves down or stays. -/
theorem reduce_premium_no_upgrade (tbl : RateTable) (disp target : Int)
    (idx : Code → Int) (hInv : Inv tbl idx) :
    idx Code.E ≤ reduce_premium tbl disp idx target Code.E
    ∧ (reduce_premium tbl disp idx target Code.F = idx Code.F
        ∨ reduce_premium tbl disp idx target Code.F = 0)
    ∧ (reduce_premium tbl disp idx target Code.H = idx Code.H
        ∨ reduce_premium tbl disp idx target Code.H = 0)
    ∧ ∀ k, k ≠ Code.E → k ≠ Code.F → k ≠ Code.H →
        reduce_premium tbl disp idx target k ≤ idx k := by
  unfold reduce_premium
  rw [finalize_id tbl (reduce_loop_inv tbl disp target tbl.reducePriority idx hInv)]
  exact reduce_loop_no_upgrade tbl disp target tbl.reducePriority idx

/-- Witness for C3's amended theorem at the modelled table and the basic
anchored profile. -/
theorem reduce_premium_no_upgrade_witness :
    Inv specTable basic_profile
    ∧ basic_profile Code.E ≤
        reduce_premium specTable 1600 basic_profile 1 Code.E :=
  ⟨by decide,
   (reduce_premium_no_upgrade specTable 1600 1 basic_profile (by decide)).1⟩

/-- A profile that violates the tier invariant: code `A` at the (illegal)
index −1, everything else 0. -/
def c3_idx : Code → Int := fun k => if k = Code.A then -1 else 0

/-- Counterexample to C3 as stated ("for every profile"): for the non-finalized
profile with `A = -1` and a target the premium already meets, `reduce_premium`
performs no downgrade step, yet the final `finalize` raises `A` from −1 to 0 —
a forward code's index increased. -/
theorem reduce_premium_no_upgrade_counterexample :
    ¬ reduce_premium specTable 1600 c3_idx 1000000 Code.A ≤ c3_idx Code.A := by
  decide

/-! ### C8: an unreachable ceiling drives the profile to its floor -/

lemma contrib_E_antitone (tbl : RateTable)
    (hrev : ∀ v : Int, 1 ≤ v → v < tbl.maxIndex Code.E →
      contrib tbl Code.E (v + 1) ≤ contrib tbl Code.E v)
    {v w : Int} (h1 : 1 ≤ v) (hvw : v ≤ w) (hw : w ≤ tbl.maxIndex Code.E) :
    contrib tbl Code.E w ≤ contrib tbl Code.E v := by
  have key : ∀ u, v ≤ u →
      (u ≤ tbl.maxIndex Code.E → contrib tbl Code.E u ≤ contrib tbl Code.E v) := by
    refine Int.le_induction ?_ ?_
    · intro _
      exact le_refl _
    · intro n hvn ihn hn1
      exact le_trans (hrev n (by omega) (by omega)) (ihn (by omega))
  exact key w hvw hw

lemma contrib_floor_le (tbl : RateTable)
    (hrev : ∀ v : Int, 1 ≤ v → v < tbl.maxIndex Code.E →
      contrib tbl Code.E (v + 1) ≤ contrib tbl Code.E v)
    (hpos : ∀ k v p, tbl.options k v = some p → 0 ≤ p)
    (c : Code) {v : Int} (hv : v = 0 ∨ (1 ≤ v ∧ v ≤ tbl.maxIndex c)) :
    contrib tbl c (code_floor tbl c v) ≤ contrib tbl c v := by
  unfold code_floor
  split_ifs with hE hle
  · exact le_refl _
  · subst hE
    rcases hv with h | ⟨h1, h2⟩
    · exact absurd h (by omega)
    · exact contrib_E_antitone tbl hrev h1 h2 (le_refl _)
  · rw [contrib_zero]
    exact contrib_nonneg tbl hpos c v

lemma final_update_floor_le (tbl : RateTable) (disp : Int)
    (hrev : ∀ v : Int, 1 ≤ v → v < tbl.maxIndex Code.E →
      contrib tbl Code.E (v + 1) ≤ contrib tbl Code.E v)
    (hpos : ∀ k v p, tbl.options k v = some p → 0 ≤ p)
    {idx : Code → Int} (hInv : Inv tbl idx) (c : Code) :
    final_amount tbl disp
        (Function.update idx c (code_floor tbl c (idx c)))
      ≤ final_amount tbl disp idx := by
  refine final_amount_mono tbl disp fun k => ?_
  rcases eq_or_ne k c with rfl | hk
  · rw [Function.update_same]
    exact contrib_floor_le tbl hrev hpos k (hInv k)
  · rw [Function.update_noteq hk]

lemma Inv.update_floor (tbl : RateTable) {idx : Code → Int}
    (hInv : Inv tbl idx) (c : Code) :
    Inv tbl (Function.update idx c (code_floor tbl c (idx c))) := by
  refine Inv.update tbl hInv ?_
  unfold code_floor
  split_ifs with hE hle
  · rcases hInv c with h | ⟨h1, h2⟩
    · subst hE; exact Or.inl h
    · omega
  · subst hE
    rcases hInv Code.E with h | ⟨h1, h2⟩
    · omega
    · exact Or.inr ⟨by omega, le_refl _⟩
  · exact Or.inl rfl

lemma min_config_inv (tbl : RateTable) :
    ∀ (pr : List Code) (idx : Code → Int), Inv tbl idx →
      Inv tbl (min_config tbl pr idx) := by
  intro pr
  induction pr with
  | nil => intro idx h; exact h
  | cons c rest ih => intro idx h; exact ih _ (Inv.update_floor tbl h c)

lemma min_config_premium_le (tbl : RateTable) (disp : Int)
    (hrev : ∀ v : Int, 1 ≤ v → v < tbl.maxIndex Code.E →
      contrib tbl Code.E (v + 1) ≤ contrib tbl Code.E v)
    (hpos : ∀ k v p, tbl.options k v = some p → 0 ≤ p) :
    ∀ (pr : List Code) (idx : Code → Int), Inv tbl idx →
      final_amount tbl disp (min_config tbl pr idx)
        ≤ final_amount tbl disp idx := by
  intro pr
  induction pr with
  | nil => intro idx _; exact le_refl _
  | cons c rest ih =>
    intro idx hInv
    exact le_trans (ih _ (Inv.update_floor tbl hInv c))
      (final_update_floor_le tbl disp hrev hpos hInv c)

lemma reduce_while_floor (tbl : RateTable) (disp target : Int)
    (hrev : ∀ v : Int, 1 ≤ v → v < tbl.maxIndex Code.E →
      contrib tbl Code.E (v + 1) ≤ contrib tbl Code.E v)
    (hpos : ∀ k v p, tbl.options k v = some p → 0 ≤ p) (code : Code) :
    ∀ (fuel : Nat) (idx : Code → Int), Inv tbl idx →
      (if code = Code.E then (tbl.maxIndex Code.E - idx Code.E).toNat
       else (idx code).toNat) < fuel →
      target < final_amount tbl disp
        (Function.update idx code (code_floor tbl code (idx code))) →
      reduce_while tbl disp target code fuel idx
        = Function.update idx code (code_floor tbl code (idx code)) := by
  intro fuel
  induction fuel with
  | zero => intro idx _ hm _; exact absurd hm (Nat.not_lt_zero _)
  | succ m ih =>
    intro idx hInv hm htar
    have hfl : final_amount tbl disp
        (Function.update idx code (code_floor tbl code (idx code)))
        ≤ final_amount tbl disp idx :=
      final_update_floor_le tbl disp hrev hpos hInv code
    unfold reduce_while
    split_ifs with h1 h2 h3 h4
    · exact absurd h1 (by omega)
    · have h0 : idx code = 0 := by
        rcases hInv code with h | ⟨ha, hb⟩ <;> omega
      have hf : code_floor tbl code (idx code) = idx code := by
        unfold code_floor
        split_ifs <;> omega
      rw [hf, Function.update_eq_self]
    · subst h3
      have heq : idx Code.E = tbl.maxIndex Code.E := by
        rcases hInv Code.E with h | ⟨ha, hb⟩ <;> omega
      have hf : code_floor tbl Code.E (idx Code.E) = idx Code.E := by
        unfold code_floor
        rw [if_pos rfl, if_neg (by omega), heq]
      rw [hf, Function.update_eq_self]
    · subst h3
      have hf : code_floor tbl Code.E (idx Code.E) = tbl.maxIndex Code.E := by
        unfold code_floor
        rw [if_pos rfl, if_neg (by omega)]
      have hf2 : code_floor tbl Code.E
          (Function.update idx Code.E (idx Code.E + 1) Code.E)
          = tbl.maxIndex Code.E := by
        rw [Function.update_same]
        unfold code_floor
        rw [if_pos rfl, if_neg (by omega)]
      have hInv2 : Inv tbl (Function.update idx Code.E (idx Code.E + 1)) :=
        Inv.update tbl hInv (Or.inr ⟨by omega, by omega⟩)
      have hm2 : (if Code.E = Code.E then
          (tbl.maxIndex Code.E
            - Function.update idx Code.E (idx Code.E + 1) Code.E).toNat
          else (Function.update idx Code.E (idx Code.E + 1) Code.E).toNat)
          < m := by
        rw [if_pos rfl, Function.update_same]
        rw [if_pos rfl] at hm
        omega
      have htar2 : target < final_amount tbl disp
          (Function.update (Function.update idx Code.E (idx Code.E + 1)) Code.E
            (code_floor tbl Code.E
              (Function.update idx Code.E (idx Code.E + 1) Code.E))) := by
        rw [hf2, Function.update_idem]
        rw [hf] at htar
        exact htar
      rw [ih (Function.update idx Code.E (idx Code.E + 1)) hInv2 hm2 htar2]
      rw [hf, hf2, Function.update_idem]
    · have hf : code_floor tbl code (idx code) = 0 := by
        unfold code_floor
        rw [if_neg h3]
      rw [hf]
    · have hf : code_floor tbl code (idx code) = 0 := by
        unfold code_floor
        rw [if_neg h3]
      rw [hf]
    · have hf : code_floor tbl code (idx code) = 0 := by
        unfold code_floor
        rw [if_neg h3]
      have hf2 : code_floor tbl code
          (Function.update idx code (idx code - 1) code) = 0 := by
        unfold code_floor
        rw [if_neg h3]
      have hInv2 : Inv tbl (Function.update idx code (idx code - 1)) := by
        refine Inv.update tbl hInv (Or.inr ⟨by omega, ?_⟩)
        rcases hInv code with h | ⟨ha, hb⟩ <;> omega
      have hm2 : (if code = Code.E then
          (tbl.maxIndex Code.E
            - Function.update idx code (idx code - 1) Code.E).toNat
          else (Function.update idx code (idx code - 1) code).toNat) < m := by
        rw [if_neg h3, Function.update_same]
        rw [if_neg h3] at hm
        omega
      have htar2 : target < final_amount tbl disp
          (Function.update (Function.update idx code (idx code - 1)) code
            (code_floor tbl code
              (Function.update idx code (idx code - 1) code))) := by
        rw [hf2, Function.update_idem]
        rw [hf] at htar
        exact htar
      rw [ih (Function.update idx code (idx code - 1)) hInv2 hm2 htar2]
      rw [hf, hf2, Function.update_idem]

lemma reduce_code_floor (tbl : RateTable) (disp target : Int)
    (hrev : ∀ v : Int, 1 ≤ v → v < tbl.maxIndex Code.E →
      contrib tbl Code.E (v + 1) ≤ contrib tbl Code.E v)
    (hpos : ∀ k v p, tbl.options k v = some p → 0 ≤ p) (code : Code)
    (idx : Code → Int) (hInv : Inv tbl idx)
    (htar : target < final_amount tbl disp
      (Function.update idx code (code_floor tbl code (idx code)))) :
    reduce_code tbl disp target code idx
      = Function.update idx code (code_floor tbl code (idx code)) :=
  reduce_while_floor tbl disp target hrev hpos code _ idx hInv
    (Nat.lt_succ_self _) htar

lemma reduce_loop_floor (tbl : RateTable) (disp target : Int)
    (hrev : ∀ v : Int, 1 ≤ v → v < tbl.maxIndex Code.E →
      contrib tbl Code.E (v + 1) ≤ contrib tbl Code.E v)
    (hpos : ∀ k v p, tbl.options k v = some p → 0 ≤ p) :
    ∀ (pr : List Code) (idx : Code → Int), Inv tbl idx →
      target < final_amount tbl disp (min_config tbl pr idx) →
      reduce_loop tbl disp target pr idx = min_config tbl pr idx := by
  intro pr
  induction pr with
  | nil => intro idx _ _; rfl
  | cons c rest ih =>
    intro idx hInv htar
    have hup : Inv tbl
        (Function.update idx c (code_floor tbl c (idx c))) :=
      Inv.update_floor tbl hInv c
    have htar2 : target < final_amount tbl disp
        (min_config tbl rest
          (Function.update idx c (code_floor tbl c (idx c)))) := htar
    have htarU : target < final_amount tbl disp
        (Function.update idx c (code_floor tbl c (idx c))) :=
      lt_of_lt_of_le htar2 (min_config_premium_le tbl disp hrev hpos rest _ hup)
    unfold reduce_loop
    rw [reduce_code_floor tbl disp target hrev hpos c idx hInv htarU]
    rw [if_neg (by omega)]
    exact ih _ hup htar2

/-- C8.  For every finalized profile and positive target: when even the
minimum-cost configuration — every code of the priority order downgraded to
its limit, forward codes to 0, the reverse code to its maximum tier, binary
codes removed — still exceeds the target, `reduce_premium` returns exactly
that configuration; being a total function, it raises no error and the unmet
ceiling is silent. -/
theorem reduce_premium_exhausted (tbl : RateTable) (disp target : Int)
    (idx : Code → Int)
    (hrev : ∀ v : Int, 1 ≤ v → v < tbl.maxIndex Code.E →
      contrib tbl Code.E (v + 1) ≤ contrib tbl Code.E v)
    (hpos : ∀ k v p, tbl.options k v = some p → 0 ≤ p)
    (hInv : Inv tbl idx) (htarget : 0 < target)
    (hfail : target < final_amount tbl disp
      (min_config tbl tbl.reducePriority idx)) :
    reduce_premium tbl disp idx target
      = min_config tbl tbl.reducePriority idx := by
  unfold reduce_premium
  rw [reduce_loop_floor tbl disp target hrev hpos tbl.reducePriority idx hInv
    hfail]
  exact finalize_id tbl (min_config_inv tbl tbl.reducePriority idx hInv)

/-- Witness for C8: the basic anchored profile with a ceiling of 1 — below the
compulsory premium, hence unreachable — is driven to its minimum-cost
configuration. -/
theorem reduce_premium_exhausted_witness :
    Inv specTable basic_profile ∧ (0 : Int) < 1
    ∧ (1 : Int) < final_amount specTable 1600
        (min_config specTable specTable.reducePriority basic_profile)
    ∧ reduce_premium specTable 1600 basic_profile 1
        = min_config specTable specTable.reducePriority basic_profile :=
  ⟨by decide, by decide, by decide,
   reduce_premium_exhausted specTable 1600 1 basic_profile specTable_hrev
     specTable_hpos (by decide) (by decide) (by decide)⟩

/-! ### C4: the economy plan against the recommended plan -/

lemma contrib_fwd_chain (tbl : RateTable)
    (hfwd : ∀ k, k ≠ Code.E → ∀ v : Int, 1 ≤ v → v ≤ tbl.maxIndex k →
      contrib tbl k (v - 1) ≤ contrib tbl k v)
    {k : Code} (hk : k ≠ Code.E) {v w : Int} (h1 : 1 ≤ v) (hvw : v ≤ w)
    (hw : w ≤ tbl.maxIndex k) : contrib tbl k v ≤ contrib tbl k w := by
  have key : ∀ u, v ≤ u →
      (u ≤ tbl.maxIndex k → contrib tbl k v ≤ contrib tbl k u) := by
    refine Int.le_induction ?_ ?_
    · intro _
      exact le_refl _
    · intro n hvn ihn hn1
      have step : contrib tbl k n ≤ contrib tbl k (n + 1) := by
        have := hfwd k hk (n + 1) (by omega) hn1
        simpa using this
      exact le_trans (ihn (by omega)) step
  exact key w hvw hw

lemma economy_contrib_le (idx : Code → Int) (hInv : Inv specTable idx)
    (hE5 : idx Code.E ≠ 5) (k : Code) :
    contrib specTable k (build_economy_indices idx k)
      ≤ contrib specTable k (idx k) := by
  rcases hInv k with h0 | ⟨h1, h2⟩
  · unfold build_economy_indices
    rw [if_neg (by omega), h0]
  · have hpos : 0 < idx k := by omega
    unfold build_economy_indices
    rw [if_pos hpos]
    by_cases hkE : k = Code.E
    · subst hkE
      rw [if_pos rfl]
      have h5 : specTable.maxIndex Code.E = 5 := rfl
      rw [h5] at h2
      exact contrib_E_antitone specTable specTable_hrev h1 (by omega)
        (by decide)
    · rw [if_neg hkE]
      exact contrib_fwd_chain specTable specTable_hfwd hkE (le_refl 1) h1 h2

/-- C4 (amended).  Over the modelled table: for every finalized recommended
profile with at least one active code, in which the reverse code `E` is not at
its "not covered" tier 5 — equivalently, every active code's tier has a
defined premium — the economy profile's voluntary premium is at most the
recommended profile's voluntary premium, and `compute_plan_diff`'s
`total_savings` is non-negative. -/
theorem economy_plan_savings (idx : Code → Int) (hInv : Inv specTable idx)
    (hactive : ∃ k, 0 < idx k) (hE5 : idx Code.E ≠ 5) :
    economy_voluntary specTable idx ≤ voluntary_premium specTable idx
    ∧ 0 ≤ total_savings specTable idx (build_economy_indices idx) := by
  have hle : economy_voluntary specTable idx
      ≤ voluntary_premium specTable idx :=
    voluntary_mono specTable (economy_contrib_le idx hInv hE5)
  refine ⟨hle, ?_⟩
  have heq : total_savings specTable idx (build_economy_indices idx)
      = voluntary_premium specTable idx - economy_voluntary specTable idx :=
    rfl
  omega

/-- The deluxe anchored profile of a car of age at most 3 — a finalized profile
with active codes and `E` off the not-covered tier. -/
def deluxe_profile : Code → Int :=
  fun k =>
    match k with
    | Code.A | Code.B | Code.C | Code.D => 3
    | Code.E => 2
    | Code.F | Code.G => 3
    | Code.H => 1
    | Code.I | Code.J | Code.K => 3

/-- Witness for C4's amended theorem at the deluxe profile. -/
theorem economy_plan_savings_witness :
    Inv specTable deluxe_profile ∧ (∃ k, 0 < deluxe_profile k)
    ∧ deluxe_profile Code.E ≠ 5
    ∧ economy_voluntary specTable deluxe_profile
        ≤ voluntary_premium specTable deluxe_profile :=
  ⟨by decide, ⟨Code.A, by decide⟩, by decide,
   (economy_plan_savings deluxe_profile (by decide) ⟨Code.A, by decide⟩
      (by decide)).1⟩

/-- A finalized profile whose only active code is `E` at the "not covered"
tier 5 — reachable by anchoring a basic-age car and reducing with target 0. -/
def c4_idx : Code → Int := fun k => if k = Code.E then 5 else 0

/-- Counterexample to C4 as stated: this profile has an active code, yet its
economy plan (which forces `E` to tier 4, a tier with a defined premium) has a
strictly larger voluntary premium than the recommended profile (whose `E` tier
5 has no defined premium and contributes nothing), and `total_savings` is
negative. -/
theorem economy_plan_savings_counterexample :
    (∃ k, 0 < c4_idx k) ∧ Inv specTable c4_idx
    ∧ ¬ (economy_voluntary specTable c4_idx
          ≤ voluntary_premium specTable c4_idx)
    ∧ total_savings specTable c4_idx (build_economy_indices c4_idx) < 0 :=
  ⟨⟨Code.E, by decide⟩, by decide, by decide, by decide⟩

/-! ### C7: radar scores stay within the presentation band -/

lemma to_visual_mem (raw : ℚ) (j : Int) :
    70 ≤ to_visual raw j ∧ to_visual raw j ≤ 95 := by
  unfold to_visual
  exact ⟨le_max_left _ _, max_le (by norm_num) (min_le_left _ _)⟩

lemma raws_zero (tbl : RateTable) :
    passenger_raw tbl zero_profile = 0
    ∧ vehicle_raw tbl zero_profile = 0
    ∧ liability_raw tbl zero_profile = 0
    ∧ service_raw tbl zero_profile = 0
    ∧ budget_raw tbl zero_profile = 0 := by
  refine ⟨?_, ?_, ?_, ?_, ?_⟩
  · norm_num [passenger_raw, zero_profile, normalize]
  · norm_num [vehicle_raw, zero_profile, List.filter]
  · norm_num [liability_raw, zero_profile, normalize]
  · norm_num [service_raw, zero_profile, List.filter]
  · have hvol : voluntary_premium tbl zero_profile = 0 := by
      norm_num [voluntary_premium, allCodes, contrib, zero_profile]
    norm_num [budget_raw, hvol]

lemma to_visual_zero_le (j : Int) (hj : j ≤ 2) : to_visual 0 j ≤ 72 := by
  unfold to_visual
  have hb : pyRound (70 + 0 / 100 * 25) = 70 := by
    norm_num [pyRound]
  rw [hb]
  have hmin : min 95 ((70 : Int) + j) ≤ 72 :=
    le_trans (min_le_right _ _) (by omega)
  exact max_le (by norm_num) hmin

/-- C7.  For every profile and every jitter outcome in `[-2, 2]`, each of the
five radar scores lies in `[70, 95]`; and the all-zero profile has all five
raw aggregates equal to 0, so each of its scores lies in the lower bound
region `[70, 72]`. -/
theorem calculate_radar_bounds (tbl : RateTable) (idx : Code → Int)
    (jp jv jl js jb : Int)
    (hjp : -2 ≤ jp ∧ jp ≤ 2) (hjv : -2 ≤ jv ∧ jv ≤ 2)
    (hjl : -2 ≤ jl ∧ jl ≤ 2) (hjs : -2 ≤ js ∧ js ≤ 2)
    (hjb : -2 ≤ jb ∧ jb ≤ 2) :
    (70 ≤ (calculate_radar tbl idx jp jv jl js jb).passenger_preference
      ∧ (calculate_radar tbl idx jp jv jl js jb).passenger_preference ≤ 95
      ∧ 70 ≤ (calculate_radar tbl idx jp jv jl js jb).vehicle_protection
      ∧ (calculate_radar tbl idx jp jv jl js jb).vehicle_protection ≤ 95
      ∧ 70 ≤ (calculate_radar tbl idx jp jv jl js jb).liability_concern
      ∧ (calculate_radar tbl idx jp jv jl js jb).liability_concern ≤ 95
      ∧ 70 ≤ (calculate_radar tbl idx jp jv jl js jb).service_needs
      ∧ (calculate_radar tbl idx jp jv jl js jb).service_needs ≤ 95
      ∧ 70 ≤ (calculate_radar tbl idx jp jv jl js jb).budget_profile
      ∧ (calculate_radar tbl idx jp jv jl js jb).budget_profile ≤ 95)
    ∧ (passenger_raw tbl zero_profile = 0
      ∧ vehicle_raw tbl zero_profile = 0
      ∧ liability_raw tbl zero_profile = 0
      ∧ service_raw tbl zero_profile = 0
      ∧ budget_raw tbl zero_profile = 0)
    ∧ ((calculate_radar tbl zero_profile jp jv jl js jb).passenger_preference
          ≤ 72
      ∧ (calculate_radar tbl zero_profile jp jv jl js jb).vehicle_protection
          ≤ 72
      ∧ (calculate_radar tbl zero_profile jp jv jl js jb).liability_concern
          ≤ 72
      ∧ (calculate_radar tbl zero_profile jp jv jl js jb).service_needs ≤ 72
      ∧ (calculate_radar tbl zero_profile jp jv jl js jb).budget_profile
          ≤ 72) := by
  obtain ⟨hz1, hz2, hz3, hz4, hz5⟩ := raws_zero tbl
  refine ⟨?_, ⟨hz1, hz2, hz3, hz4, hz5⟩, ?_⟩
  · exact ⟨(to_visual_mem _ jp).1, (to_visual_mem _ jp).2,
      (to_visual_mem _ jv).1, (to_visual_mem _ jv).2,
      (to_visual_mem _ jl).1, (to_visual_mem _ jl).2,
      (to_visual_mem _ js).1, (to_visual_mem _ js).2,
      (to_visual_mem _ jb).1, (to_visual_mem _ jb).2⟩
  · unfold calculate_radar
    rw [hz1, hz2, hz3, hz4, hz5]
    exact ⟨to_visual_zero_le jp hjp.2, to_visual_zero_le jv hjv.2,
      to_visual_zero_le jl hjl.2, to_visual_zero_le js hjs.2,
      to_visual_zero_le jb hjb.2⟩

/-- Witness for C7 at the modelled table, the deluxe profile and zero
jitters. -/
theorem calculate_radar_bounds_witness :
    ((-2 : Int) ≤ 0 ∧ (0 : Int) ≤ 2)
    ∧ 70 ≤ (calculate_radar specTable deluxe_profile 0 0 0 0 0).passenger_preference :=
  ⟨by decide,
   ((calculate_radar_bounds specTable deluxe_profile 0 0 0 0 0 (by decide)
      (by decide) (by decide) (by decide) (by decide)).1).1⟩

end RecommendReport
